import Mathlib

/-!
Verification of the FinBoard data layer (shared fetch cache, JSON path
utilities, response normalization and error classification).

The JavaScript sources are shallowly embedded: JS values are modelled by the
inductive `Json` below (including the JS `undefined`, which is how the code
distinguishes "absent" from a present `null`), JS numbers by `JsNum`
(a rational or `NaN`; the sources never rely on floating-point rounding),
and code that can raise a `TypeError` returns `Except Unit`.
-/

namespace FinBoard

/-- A JS number: either `NaN` (produced by failed numeric coercions such as
`parseFloat` on a non-numeric string) or an exact value. The numeric values the
data layer manipulates (prices, intervals, status codes) are exact decimals, so
a rational carries them faithfully. -/
inductive JsNum where
  | nan
  | val (q : ℚ)
deriving DecidableEq

/-- A JS value as the data layer sees it. Arrays carry both their element list
and the extra non-index string properties a JS array can hold (`setByPath` can
create such properties when a numeric-looking path segment is not a canonical
array index). `undefined` is the JS `undefined`. -/
inductive Json where
  | undefined
  | null
  | bool (b : Bool)
  | num (n : JsNum)
  | str (s : String)
  | arr (elems : List Json) (props : List (String × Json))
  | obj (fields : List (String × Json))

/-- First-match lookup in an association list (JS object property read). -/
def mapGet {α : Type} : List (String × α) → String → Option α
  | [], _ => none
  | (k, v) :: t, key => if k = key then some v else mapGet t key

/-- Insertion-order preserving update of an association list: replace the
existing binding in place, or append a new one (JS property assignment). -/
def mapSet {α : Type} : List (String × α) → String → α → List (String × α)
  | [], key, v => [(key, v)]
  | (k, w) :: t, key, v => if k = key then (key, v) :: t else (k, w) :: mapSet t key v

/-- Removal from an association list (JS `Map.delete`). -/
def mapDelete {α : Type} : List (String × α) → String → List (String × α)
  | [], _ => []
  | (k, w) :: t, key => if k = key then t else (k, w) :: mapDelete t key

/-- JS truthiness of a value. -/
def truthy : Json → Bool
  | .undefined => false
  | .null => false
  | .bool b => b
  | .num .nan => false
  | .num (.val q) => decide (q ≠ 0)
  | .str s => decide (s ≠ "")
  | .arr _ _ => true
  | .obj _ => true

/-- JS loose equality with `null` (`x == null`), true exactly for `null` and
`undefined`. -/
def isNullish : Json → Bool
  | .null => true
  | .undefined => true
  | _ => false

/-- The all-digits test (`/^\d+$/`) combined with `parseInt(key, 10)` used by
the path utilities for array index keys: `some n` iff the key is nonempty and
all ASCII digits, with `n` its decimal value. -/
def digitsKey? (s : String) : Option Nat :=
  let cs := s.data
  if !cs.isEmpty && cs.all Char.isDigit then
    some (cs.foldl (fun a c => a * 10 + (c.toNat - 48)) 0)
  else none

/-- A string is a canonical array index when it is the decimal numeral of a
natural number with no leading zeros; only such property keys address array
elements in JS. -/
def jsArrayIndex? (k : String) : Option Nat :=
  match digitsKey? k with
  | some n => if Nat.repr n = k then some n else none
  | none => none

/-- Raw JS property read `x[k]` on a value: objects read their fields, arrays
read an element for a canonical index key and a string property otherwise, and
any other receiver yields `undefined` (primitives box to objects without own
data properties). -/
def jsGet : Json → String → Json
  | .obj fs, k => (mapGet fs k).getD .undefined
  | .arr es ps, k =>
    match jsArrayIndex? k with
    | some n => (es.get? n).getD .undefined
    | none => (mapGet ps k).getD .undefined
  | _, _ => .undefined

/-- Extend an array with holes (read back as `undefined`) so that index `n`
exists, as JS does on out-of-range index assignment. -/
def padElems (es : List Json) (n : Nat) : List Json :=
  es ++ List.replicate (n + 1 - es.length) Json.undefined

/-- Raw JS property write `x[k] = v`: objects update their fields, arrays
update an element for a canonical index key (growing the array if needed) and
a string property otherwise. Assignment to a primitive receiver is silently
ignored (non-strict mode); the embedded code never does it. -/
def jsSet : Json → String → Json → Json
  | .obj fs, k, v => .obj (mapSet fs k v)
  | .arr es ps, k, v =>
    match jsArrayIndex? k with
    | some n => .arr ((padElems es n).set n v) ps
    | none => .arr es (mapSet ps k v)
  | j, _, _ => j

/-- The shallow copy used by `setByPath` (array spread for arrays, object
spread otherwise): array spread keeps the elements and drops extra string
properties; object spread keeps the fields; spreading a primitive yields an
empty object (the character properties produced by spreading a string are
immaterial to the properties verified here and are not modelled). -/
def jsCopy : Json → Json
  | .arr es _ => .arr es []
  | .obj fs => .obj fs
  | _ => .obj []

/-- JS `k in x` (own members; the embedded shape checks only probe data keys
that are never inherited): field of an object, or element index / string
property of an array. -/
def hasOwnMember (j : Json) (k : String) : Bool :=
  match j with
  | .obj fs => (mapGet fs k).isSome
  | .arr es ps =>
    match jsArrayIndex? k with
    | some n => decide (n < es.length)
    | none => (mapGet ps k).isSome
  | _ => false

mutual

/-- JS strict equality `===` restricted to the embedded value domain (used by
`Array.prototype.includes`, whose SameValueZero comparison agrees with `===`
on the values arising here; reference identity of distinct but equal objects
is not observed by the embedded code). -/
def beqJson : Json → Json → Bool
  | .undefined, .undefined => true
  | .null, .null => true
  | .bool a, .bool b => a == b
  | .num a, .num b => a == b
  | .str a, .str b => a == b
  | .arr es ps, .arr fs qs => beqJsonList es fs && beqJsonProps ps qs
  | .obj fs, .obj gs => beqJsonProps fs gs
  | _, _ => false

def beqJsonList : List Json → List Json → Bool
  | [], [] => true
  | a :: as, b :: bs => beqJson a b && beqJsonList as bs
  | _, _ => false

def beqJsonProps : List (String × Json) → List (String × Json) → Bool
  | [], [] => true
  | (k, a) :: as, (l, b) :: bs => k == l && beqJson a b && beqJsonProps as bs
  | _, _ => false

end

/-! ### PathExtractor: `getByPath` / `setByPath` (src jsonPath utilities) -/

/-- JS `path.split(".")` (single-character separator), on the character
list. -/
def splitDotAux : List Char → List Char → List String
  | acc, [] => [String.mk acc.reverse]
  | acc, c :: cs =>
    if c = '.' then String.mk acc.reverse :: splitDotAux [] cs
    else splitDotAux (c :: acc) cs

/-- JS `path.split(".")`. -/
def splitDot (s : String) : List String := splitDotAux [] s.data

/-- The traversal loop of `getByPath`: at each step a `null`/`undefined`
current value yields `undefined`; an array dereferenced with an all-digits key
(the source tests the key against an all-digits pattern and applies
`parseInt`) reads the element at that index; any other object read is a plain
property read; a primitive current value yields `undefined`. -/
def getPathAux : Json → List String → Json
  | cur, [] => cur
  | .undefined, _ :: _ => .undefined
  | .null, _ :: _ => .undefined
  | .arr es ps, k :: ks =>
    (match digitsKey? k with
     | some n => getPathAux ((es.get? n).getD .undefined) ks
     | none => getPathAux ((mapGet ps k).getD .undefined) ks)
  | .obj fs, k :: ks => getPathAux ((mapGet fs k).getD .undefined) ks
  | _, _ :: _ => .undefined

/-- `getByPath(obj, path)` from the JSON path utilities: empty path returns
the object itself, a `null`/`undefined` root yields `undefined`, otherwise the
dot-separated segments are traversed; `undefined` (`Json.undefined`) is the
distinguished "not found" result. -/
def getByPath (obj : Json) (path : String) : Json :=
  if path = "" then obj
  else
    match obj with
    | .null => .undefined
    | .undefined => .undefined
    | _ => getPathAux obj (splitDot path)

/-- The source tests the next path segment against the all-digits pattern to
decide whether to create an array or an object. -/
def isDigitsSeg (k : String) : Bool := (digitsKey? k).isSome

/-- Intermediate-node step of `setByPath`: a missing (`undefined`) or `null`
child is replaced by a fresh array (when the next segment is all digits) or
object; any other child is shallow-copied. -/
def childFor (old : Json) (nextKey : String) : Json :=
  match old with
  | .undefined => if isDigitsSeg nextKey then Json.arr [] [] else Json.obj []
  | .null => if isDigitsSeg nextKey then Json.arr [] [] else Json.obj []
  | o => jsCopy o

/-- The copy-and-descend loop of `setByPath`: each intermediate node is
created or shallow-copied (`childFor`), and the final segment is assigned the
value. -/
def setKeys : Json → List String → Json → Json
  | cur, [], _ => cur
  | cur, [k], v => jsSet cur k v
  | cur, k :: k2 :: ks, v =>
    jsSet cur k (setKeys (childFor (jsGet cur k) k2) (k2 :: ks) v)

/-- `setByPath(obj, path, value)` from the JSON path utilities: an empty path
returns the value itself; otherwise the root is shallow-copied and the
segments are descended, copying or creating intermediate nodes. -/
def setByPath (obj : Json) (path : String) (value : Json) : Json :=
  if path = "" then value
  else setKeys (jsCopy obj) (splitDot path) value

/-! ### Lemmas for the set/get roundtrip -/

/-- A path segment is in canonical form when, if it is all digits, it is the
decimal numeral of its value (no leading zeros). Non-numeric segments are
always canonical. -/
def goodSegB (k : String) : Bool :=
  match digitsKey? k with
  | some n => decide (Nat.repr n = k)
  | none => true

/-- Arrays and plain objects are the traversable JS containers. -/
def isContainer : Json → Bool
  | .arr _ _ => true
  | .obj _ => true
  | _ => false

/-! ### ResponseNormalizer: `normalizeData` (src/utils/normalizeData.js) -/

/-- Decimal digits to a natural number (the fold `parseInt` performs). -/
def natDigits (cs : List Char) : Nat :=
  cs.foldl (fun a c => a * 10 + (c.toNat - 48)) 0

/-- The decimal core of JS `parseFloat` on a string: skip leading whitespace,
optional sign, digits with an optional fractional part, parsing the longest
valid numeric prefix; no parsable prefix yields `NaN`. The value
`±(ip.fp)` is assembled as the exact rational `±(ip·10^k + fp) / 10^k`.
(Exponents and `Infinity`, which the embedded data never uses, are not
modelled.) -/
def jsParseFloatChars (cs : List Char) : JsNum :=
  let cs := cs.dropWhile (fun c => c = ' ' || c = '\t' || c = '\n' || c = '\r')
  let signed : Int × List Char :=
    match cs with
    | '-' :: t => (-1, t)
    | '+' :: t => (1, t)
    | _ => (1, cs)
  let sign := signed.1
  let cs := signed.2
  let ip := cs.takeWhile Char.isDigit
  let rest := cs.dropWhile Char.isDigit
  match rest with
  | '.' :: t =>
    let fp := t.takeWhile Char.isDigit
    if ip.isEmpty && fp.isEmpty then .nan
    else .val (mkRat (sign * ((natDigits ip * 10 ^ fp.length + natDigits fp : Nat) : Int))
      (10 ^ fp.length))
  | _ => if ip.isEmpty then .nan else .val (mkRat (sign * ((natDigits ip : Nat) : Int)) 1)

/-- JS `parseFloat(x)` as the normalizer uses it: the argument is coerced to a
string first, so numbers pass through and `undefined`, `null`, booleans and
plain objects coerce to non-numeric text, i.e. `NaN`. (The corner case of an
array whose text form is numeric is not exercised by the embedded code and is
mapped to `NaN`.) -/
def jsParseFloat : Json → JsNum
  | .str s => jsParseFloatChars s.data
  | .num x => x
  | _ => .nan

/-- `new Date(string)` on an ISO `YYYY-MM-DD` day, reduced to an
order-preserving numeric key (the normalizer only compares dates, never reads
absolute epoch values); unparsable strings give `none` (an invalid Date). -/
def parseIsoDate (s : String) : Option ℚ :=
  match s.data with
  | [y1, y2, y3, y4, h1, m1, m2, h2, d1, d2] =>
    if y1.isDigit ∧ y2.isDigit ∧ y3.isDigit ∧ y4.isDigit ∧ h1 = '-' ∧ h2 = '-'
        ∧ m1.isDigit ∧ m2.isDigit ∧ d1.isDigit ∧ d2.isDigit then
      let m := natDigits [m1, m2]
      let d := natDigits [d1, d2]
      if 1 ≤ m ∧ m ≤ 12 ∧ 1 ≤ d ∧ d ≤ 31 then
        some ((natDigits [y1, y2, y3, y4] * 10000 + m * 100 + d : Nat) : ℚ)
      else none
    else none
  | _ => none

/-- The numeric value of `new Date(x)` for the values the sort comparator
feeds it: numbers are epoch values, strings are parsed as dates, `null` is
epoch 0 and booleans coerce to 0/1; anything else is an invalid Date
(`none`, i.e. `NaN`). -/
def dateValue : Json → Option ℚ
  | .num .nan => none
  | .num (.val q) => some q
  | .str s => parseIsoDate s
  | .null => some 0
  | .bool b => some (if b then 1 else 0)
  | _ => none

/-- The sort comparator `(a, b) => new Date(a.time) - new Date(b.time)` as a
"does not need to swap" relation: true when the comparator is `≤ 0`, and also
when it is `NaN` (JS sorting treats a `NaN` comparator result as 0). -/
def dateLeB (a b : Json) : Bool :=
  match dateValue (jsGet a "time"), dateValue (jsGet b "time") with
  | some x, some y => decide (x ≤ y)
  | _, _ => true

/-- JS `x || null` (the source computes `single` as `list[i] || null`). -/
def orNull (j : Json) : Json := if truthy j then j else .null

/-- JS `list[i]` on an array value. -/
def jsIndex (l : List Json) (i : Nat) : Json := (l.get? i).getD .undefined

/-- `looksLikeFinnhubCandles`: a non-array object whose `c,h,l,o,t,v`
properties are all arrays and whose `s` property is a string. -/
def looksLikeFinnhubCandles : Json → Bool
  | .obj fs =>
    (["c", "h", "l", "o", "t", "v"].all fun k =>
      match mapGet fs k with
      | some (Json.arr _ _) => true
      | _ => false)
    && (match mapGet fs "s" with
        | some (Json.str _) => true
        | _ => false)
  | _ => false

/-- `looksLikeAlphaTimeSeriesObject`: a non-array object whose first entry has
a truthy key and an object value (arrays included) carrying a `"1. open"` or
`"4. close"` member. -/
def looksLikeAlphaTimeSeriesObject : Json → Bool
  | .obj ((k, v) :: _) =>
    decide (k ≠ "")
    && (match v with
        | .obj _ => hasOwnMember v "1. open" || hasOwnMember v "4. close"
        | .arr _ _ => hasOwnMember v "1. open" || hasOwnMember v "4. close"
        | _ => false)
  | _ => false

/-- The element list of an array value (the candle branch destructures
properties that the shape check guarantees to be arrays). -/
def arrOf : Json → List Json
  | .arr es _ => es
  | _ => []

/-- `Object.entries` of an object value (insertion order). -/
def objFields : Json → List (String × Json)
  | .obj fs => fs
  | _ => []

/-- One zipped row of the candle branch:
`(time, open, high, low, close, volume) = (t[i], o[i], h[i], l[i], c[i], v[i])`. -/
def candleRow (t o h l c v : List Json) (i : Nat) : Json :=
  .obj [("time", jsIndex t i), ("open", jsIndex o i), ("high", jsIndex h i),
        ("low", jsIndex l i), ("close", jsIndex c i), ("volume", jsIndex v i)]

/-- One mapped row of the Alpha Vantage branch: the entry key becomes `time`
and the provider-prefixed numeric strings are `parseFloat`-ed into canonical
OHLCV fields. -/
def alphaRow (timestamp : String) (ohlc : Json) : Json :=
  .obj [("time", .str timestamp),
        ("open", .num (jsParseFloat (jsGet ohlc "1. open"))),
        ("high", .num (jsParseFloat (jsGet ohlc "2. high"))),
        ("low", .num (jsParseFloat (jsGet ohlc "3. low"))),
        ("close", .num (jsParseFloat (jsGet ohlc "4. close"))),
        ("volume", .num (jsParseFloat (jsGet ohlc "5. volume")))]

/-- One row of the chart object-of-objects fallback: the object-literal
`key` field followed by a spread of the entry value (object fields, or array
index properties and then string properties), later spread members
overwriting earlier ones; non-object entry values become a `value` field. -/
def flattenRow (key : String) (val : Json) : Json :=
  match val with
  | .obj gs => .obj (gs.foldl (fun acc kv => mapSet acc kv.1 kv.2) [("key", Json.str key)])
  | .arr es ps =>
    .obj (((es.enum.map fun p => (Nat.repr p.1, p.2)) ++ ps).foldl
      (fun acc kv => mapSet acc kv.1 kv.2) [("key", Json.str key)])
  | _ => .obj [("key", Json.str key), ("value", val)]

/-- The uniform result shape of `normalizeData`. -/
structure NormalizedResult where
  raw : Json
  extracted : Json
  list : List Json
  single : Json
  timestamp : Nat

/-- `normalizeData(widget, extractedData, rawJson)` (the widget only
contributes its `type`; the impure `Date.now()` timestamp is passed in as
`now`). Chart widgets special-case candle objects, Alpha-Vantage-style keyed
time series, arrays (sorted by their `time` field when the first row has one)
and plain objects; other widgets treat arrays as tables, objects as a single
record and primitives as a wrapped value. The `Except` error is the
`TypeError` the source raises in the chart array branch when the `in`
operator probes a primitive first row, or when the sort comparator
dereferences `.time` of a `null`/`undefined` element (any element takes part
in a comparison once the list has two or more entries). -/
def normalizeData (wtype : String) (extractedData : Json) (rawJson : Json)
    (now : Nat) : Except Unit NormalizedResult :=
  if isNullish extractedData then
    .ok ⟨rawJson, extractedData, [], Json.null, now⟩
  else if wtype = "chart" then
    if looksLikeFinnhubCandles extractedData then
      let c := arrOf (jsGet extractedData "c")
      let h := arrOf (jsGet extractedData "h")
      let l := arrOf (jsGet extractedData "l")
      let o := arrOf (jsGet extractedData "o")
      let t := arrOf (jsGet extractedData "t")
      let v := arrOf (jsGet extractedData "v")
      let n := t.length
      let list := (List.range n).map (candleRow t o h l c v)
      .ok ⟨rawJson, extractedData, list, orNull (jsIndex list (n - 1)), now⟩
    else if looksLikeAlphaTimeSeriesObject extractedData then
      let list := (objFields extractedData |>.map fun kv => alphaRow kv.1 kv.2).insertionSort
        (fun a b => dateLeB a b = true)
      .ok ⟨rawJson, extractedData, list, orNull (jsIndex list (list.length - 1)), now⟩
    else
      match extractedData with
      | .arr es _ =>
        if es.length ≠ 0 then
          match es.head? with
          | some (Json.obj _) | some (Json.arr _ _) =>
            if hasOwnMember (es.headD Json.undefined) "time" then
              if 2 ≤ es.length ∧ es.any isNullish then .error ()
              else
                let list := es.insertionSort (fun a b => dateLeB a b = true)
                .ok ⟨rawJson, extractedData, list,
                  orNull (jsIndex list (list.length - 1)), now⟩
            else .ok ⟨rawJson, extractedData, es, orNull (jsIndex es (es.length - 1)), now⟩
          | _ => .error ()
        else .ok ⟨rawJson, extractedData, es, orNull (jsIndex es (es.length - 1)), now⟩
      | .obj fs =>
        let list := fs.map fun kv => flattenRow kv.1 kv.2
        .ok ⟨rawJson, extractedData, list, orNull (jsIndex list (list.length - 1)), now⟩
      | _ => .ok ⟨rawJson, extractedData, [], Json.null, now⟩
  else
    match extractedData with
    | .arr es _ => .ok ⟨rawJson, extractedData, es, orNull (jsIndex es 0), now⟩
    | .obj _ => .ok ⟨rawJson, extractedData, [extractedData], extractedData, now⟩
    | _ =>
      let single := Json.obj [("value", extractedData)]
      .ok ⟨rawJson, extractedData, [single], single, now⟩

/-! ### ErrorClassifier: error utilities (`errorUtils` in src) -/

/-- Whether `needle` occurs at the start of `hay`. -/
def charsLead : List Char → List Char → Bool
  | [], _ => true
  | _ :: _, [] => false
  | a :: as, b :: bs => a == b && charsLead as bs

/-- Whether `needle` occurs anywhere in `hay` (JS `String.prototype.includes`). -/
def charsContain (needle : List Char) : List Char → Bool
  | [] => needle.isEmpty
  | c :: cs => charsLead needle (c :: cs) || charsContain needle cs

/-- JS `hay.includes(needle)` on strings. -/
def strIncludes (hay needle : String) : Bool := charsContain needle.data hay.data

/-- The closed error taxonomy of the error utilities (`ErrorType` in the
source; constructor names mirror its string values). -/
inductive ErrorType where
  | rate_limit
  | auth_error
  | not_found
  | server_error
  | network_error
  | timeout
  | invalid_data
  | unknown
deriving DecidableEq

/-- A classified error object: `type` from the taxonomy, a user-facing
`message`, a `detail` that is usually a string but can be any JSON value the
provider sent (the `Information` / `Error Message` passthroughs), and an
optional `retryAfter` in seconds. -/
structure ErrorInfo where
  type : ErrorType
  message : String
  detail : Json
  retryAfter : Option Nat

/-- `x.includes(needle)` as `detectApiResponseError` calls it on a truthy
`json.Note`: defined on strings (substring) and arrays (element membership by
strict equality); any other receiver has no `includes` method, so the call
raises a `TypeError`. -/
def jsIncludes (j : Json) (needle : String) : Except Unit Bool :=
  match j with
  | .str s => .ok (strIncludes s needle)
  | .arr es _ => .ok (es.any fun e => beqJson e (.str needle))
  | _ => .error ()

/-- `detectApiResponseError(json)`: body-embedded provider errors — the Alpha
Vantage rate-limit `Note`, the `Information` and `Error Message` invalid-call
fields, and the CoinGecko `status.error_code === 429` rate limit — checked in
source order; non-objects yield no error. The `Except` error is the
`TypeError` raised when a truthy `Note` has no `includes` method. -/
def detectApiResponseError (json : Json) : Except Unit (Option ErrorInfo) :=
  match json with
  | .obj _ | .arr _ _ => do
    let note := jsGet json "Note"
    let noteHit ← if truthy note then jsIncludes note "API call frequency" else pure false
    if noteHit then
      return some ⟨.rate_limit, "API rate limit reached",
        .str "Alpha Vantage allows 25 requests/day (free tier). Try again tomorrow or upgrade your API key.",
        some (60 * 60)⟩
    else
      let info := jsGet json "Information"
      if truthy info then
        return some ⟨.invalid_data, "Invalid API request", info, none⟩
      else
        let em := jsGet json "Error Message"
        if truthy em then
          return some ⟨.invalid_data, "Invalid request", em, none⟩
        else
          let st := jsGet json "status"
          let ec := if isNullish st then Json.undefined else jsGet st "error_code"
          if (match ec with | .num (.val q) => decide (q = 429) | _ => false) then
            return some ⟨.rate_limit, "API rate limit reached",
              .str "Too many requests. Please wait before trying again.", some 60⟩
          else
            return none
  | _ => .ok none

/-- Case-insensitive match of `retry` at the head of the characters,
returning the remainder. -/
def stripRetry : List Char → Option (List Char)
  | r :: e :: t :: r2 :: y :: rest =>
    if r.toLower = 'r' ∧ e.toLower = 'e' ∧ t.toLower = 't' ∧ r2.toLower = 'r' ∧ y.toLower = 'y'
    then some rest else none
  | _ => none

/-- The lazy bounded gap of the retry-after pattern: up to `fuel` non-newline
characters may precede the digit run, the first position with a digit
winning; a newline or exhausted gap fails. -/
def gapScan (fuel : Nat) (cs : List Char) : Option Nat :=
  let ds := cs.takeWhile Char.isDigit
  if !ds.isEmpty then some (natDigits ds)
  else
    match fuel, cs with
    | 0, _ => none
    | _, [] => none
    | f + 1, c :: rest => if c = '\n' ∨ c = '\r' then none else gapScan f rest

/-- One attempted match of the retry-after pattern at the current position. -/
def tryRetryAt (cs : List Char) : Option Nat :=
  match stripRetry cs with
  | some rest => gapScan 10 rest
  | none => none

/-- The leftmost match of the retry-after pattern. -/
def retryScan : List Char → Option Nat
  | [] => none
  | c :: cs =>
    match tryRetryAt (c :: cs) with
    | some n => some n
    | none => retryScan cs

/-- `extractRetryAfter(responseBody)`: the digits of the first
`retry` + gap-of-at-most-10-non-newline-chars + digits occurrence
(case-insensitive), as `parseInt` reads them; `none` when there is none. -/
def extractRetryAfter (responseBody : String) : Option Nat :=
  retryScan responseBody.data

/-- The status-code arm of `parseHttpError` (the source's `switch`; the 429
arm's `extractRetryAfter(responseBody) || 60` is falsy for both a missing
match and an extracted 0). -/
def httpStatusError (status : Nat) (statusText responseBody : String) : ErrorInfo :=
  if status = 400 then
    ⟨.invalid_data, "Bad request",
      .str "The API could not understand the request. Check the URL and parameters.", none⟩
  else if status = 401 then
    ⟨.auth_error, "Authentication required",
      .str "API key is missing or invalid. Please check your API key.", none⟩
  else if status = 403 then
    ⟨.auth_error, "Access denied",
      .str "Your API key does not have permission for this resource.", none⟩
  else if status = 404 then
    ⟨.not_found, "Not found",
      .str "The requested resource does not exist. Check the API URL.", none⟩
  else if status = 429 then
    ⟨.rate_limit, "Rate limit exceeded",
      .str "Too many requests. Please wait before trying again.",
      some (match extractRetryAfter responseBody with
            | some n => if n ≠ 0 then n else 60
            | none => 60)⟩
  else if status = 500 ∨ status = 502 ∨ status = 503 ∨ status = 504 then
    ⟨.server_error, "Server error",
      .str "The API server is having issues. Try again later.", none⟩
  else
    ⟨.unknown, "Error (" ++ Nat.repr status ++ ")",
      .str (if statusText ≠ "" then statusText
            else if String.mk (responseBody.data.take 100) ≠ "" then
              String.mk (responseBody.data.take 100)
            else "An unexpected error occurred."), none⟩

/-- `parseHttpError(status, statusText, responseBody)`; `bodyJson` abstracts
`JSON.parse(responseBody)` (`none` when the body is not valid JSON, in which
case the caught parse failure falls through to status classification). A
detected body-embedded error takes precedence; otherwise the status decides. -/
def parseHttpError (status : Nat) (statusText responseBody : String)
    (bodyJson : Option Json) : Except Unit ErrorInfo := do
  let apiError ← match bodyJson with
    | some j => detectApiResponseError j
    | none => pure none
  match apiError with
  | some e => return e
  | none => return httpStatusError status statusText responseBody

/-- `parseNetworkError(error)`: classification by substrings of the lowercased
message. -/
def parseNetworkError (message : String) : ErrorInfo :=
  let m := String.mk (message.data.map Char.toLower)
  if strIncludes m "timeout" || strIncludes m "timed out" then
    ⟨.timeout, "Request timed out",
      .str "The API took too long to respond. Check your connection or try again.", none⟩
  else if strIncludes m "network" || strIncludes m "failed to fetch"
      || strIncludes m "net::err" then
    ⟨.network_error, "Network error",
      .str "Could not connect to the API. Check your internet connection.", none⟩
  else if strIncludes m "cors" then
    ⟨.network_error, "CORS error",
      .str "The API does not allow requests from this origin. Try a different API or use a proxy.",
      none⟩
  else
    ⟨.unknown, "Request failed",
      .str (if message ≠ "" then message else "An unexpected error occurred."), none⟩

/-! ### SharedFetchCache: `useApiData` (src/hooks/useApiData.js) -/

/-- An HTTP response as the query function consumes it; `bodyJson` abstracts
`JSON.parse` of `bodyText` (`none` when the text is not valid JSON). -/
structure HttpResponse where
  ok : Bool
  status : Nat
  statusText : String
  bodyText : String
  bodyJson : Option Json

/-- The outcome of `fetch(apiUrl)`: a network-level exception with its
message, or a response. -/
inductive FetchOutcome where
  | netError (message : String)
  | response (r : HttpResponse)

/-- A failed query: an `ApiError` carrying classified info, or the stray
`TypeError` escaping `detectApiResponseError` (an error value with no `type`
field). -/
inductive QueryFailure where
  | apiError (e : ErrorInfo)
  | jsError

/-- A successful query result: the decoded body and its fetch time. -/
structure QueryResult where
  data : Json
  fetchedAt : Nat

def noApiUrlError : ErrorInfo :=
  ⟨.invalid_data, "No API URL configured",
    .str "Please configure an API URL for this widget.", none⟩

def invalidJsonError : ErrorInfo :=
  ⟨.invalid_data, "Invalid response",
    .str "The API returned data that could not be parsed as JSON.", none⟩

/-- The `queryFn` of `useApiData`: reject a missing URL; surface network
errors via `parseNetworkError`; classify a non-ok response via
`parseHttpError`; on an ok response, a JSON parse failure is `InvalidData`,
and a body-embedded error detected even on 2xx is thrown rather than
returned — only otherwise is the decoded body stored as fresh data. -/
def queryFn (apiUrl : String) (outcome : FetchOutcome) (now : Nat) :
    Except QueryFailure QueryResult :=
  if apiUrl = "" then .error (.apiError noApiUrlError)
  else
    match outcome with
    | .netError msg => .error (.apiError (parseNetworkError msg))
    | .response r =>
      if r.ok = false then
        match parseHttpError r.status r.statusText r.bodyText r.bodyJson with
        | .ok e => .error (.apiError e)
        | .error _ => .error .jsError
      else
        match r.bodyJson with
        | none => .error (.apiError invalidJsonError)
        | some json =>
          match detectApiResponseError json with
          | .error _ => .error .jsError
          | .ok (some e) => .error (.apiError e)
          | .ok none => .ok ⟨json, now⟩

/-- The retry predicate of `useApiData`: never retry rate-limit, auth or
not-found errors; otherwise retry while fewer than 2 failures have occurred
(`none` models an error value without a `type` field). -/
def retryDecision (failureCount : Nat) (errType : Option ErrorType) : Bool :=
  if errType = some .rate_limit then false
  else if errType = some .auth_error then false
  else if errType = some .not_found then false
  else decide (failureCount < 2)

/-- `retryDelay(attemptIndex)`: `min(1000 * 2 ** attemptIndex, 10000)`
milliseconds. -/
def retryDelay (attemptIndex : Nat) : Nat := min (1000 * 2 ^ attemptIndex) 10000

/-- The status-code table exactly as the specification words it, to be
compared against `httpStatusError`: 400 InvalidData; 401/403 AuthError; 404
NotFound; 429 RateLimit; 500/502/503/504 ServerError; other non-2xx
Unknown. -/
def specStatusKind (status : Nat) : ErrorType :=
  if status = 400 then .invalid_data
  else if status = 401 ∨ status = 403 then .auth_error
  else if status = 404 then .not_found
  else if status = 429 then .rate_limit
  else if status = 500 ∨ status = 502 ∨ status = 503 ∨ status = 504 then .server_error
  else .unknown

/-- The module-level `refreshIntervalRegistry`: per URL, a map from widget id
to its requested refresh interval in seconds (JS `Map`s, embedded as
insertion-ordered association lists). -/
abbrev Registry : Type := List (String × List (String × Nat))

/-- `registerInterval(url, widgetId, interval)`: create the per-URL map if
absent, then bind the widget's interval. -/
def registerInterval (reg : Registry) (url widgetId : String) (interval : Nat) :
    Registry :=
  mapSet reg url (mapSet ((mapGet reg url).getD []) widgetId interval)

/-- `unregisterInterval(url, widgetId)`: drop the widget's binding and the
URL entry itself once empty. -/
def unregisterInterval (reg : Registry) (url widgetId : String) : Registry :=
  match mapGet reg url with
  | none => reg
  | some inner =>
    let inner2 := mapDelete inner widgetId
    if inner2.length = 0 then mapDelete reg url else mapSet reg url inner2

/-- `getShortestInterval(url)`: the least nonzero registered interval for the
URL, or 0 when there is none (`Math.min` over the filtered values). -/
def getShortestInterval (reg : Registry) (url : String) : Nat :=
  match mapGet reg url with
  | none => 0
  | some inner =>
    let intervals := inner.map Prod.snd
    let nonZeroIntervals := intervals.filter (fun i => 0 < i)
    match nonZeroIntervals with
    | [] => 0
    | x :: xs => xs.foldl Nat.min x

/-- `refetchInterval`: the effective interval in milliseconds, or `none`
(React Query `false`: manual-only polling) when it is zero. -/
def refetchInterval (effectiveInterval : Nat) : Option Nat :=
  if 0 < effectiveInterval then some (effectiveInterval * 1000) else none

/-- Modelled from the spec: the per-URL query-cache bookkeeping (React
Query's success/failure state handling is dependency code, not under src) per
its fetch algorithm — `rawData` is the last good decoded body, `lastError`
the classified error of the last failure, `fetching` whether a request is in
flight. -/
structure FetchCacheEntry where
  rawData : Option Json
  lastError : Option ErrorInfo
  fetching : Bool

/-- Modelled from the spec: a failed fetch keeps the previous `rawData`
(stale-while-revalidate) and records the classified error. -/
def onFetchFailure (entry : FetchCacheEntry) (e : ErrorInfo) : FetchCacheEntry :=
  ⟨entry.rawData, some e, false⟩

/-- Modelled from the spec: a successful fetch stores the decoded body and
clears the error. -/
def onFetchSuccess (_entry : FetchCacheEntry) (j : Json) : FetchCacheEntry :=
  ⟨some j, none, false⟩

/-- Modelled from the spec: `isError` exposes the presence of a last error. -/
def entryIsError (entry : FetchCacheEntry) : Bool := entry.lastError.isSome

/-- Modelled from the spec: the query-level `isLoading` — fetching with no
cached data yet. -/
def queryIsLoading (entry : FetchCacheEntry) : Bool :=
  entry.fetching && entry.rawData.isNone

/-- The widget-level loading flag from `useWidgetData`:
`isLoading: isLoading && !apiResponse`. -/
def widgetIsLoading (entry : FetchCacheEntry) : Bool :=
  queryIsLoading entry && entry.rawData.isNone

/-- The parsed date of a row's `time` field, with an invalid date read as
epoch 0 (only used to state sortedness over rows whose dates all parse, where
the default is never taken). -/
def rowDate (j : Json) : ℚ := (dateValue (jsGet j "time")).getD 0

/-- "Row `a` is no later than row `b`": the ascending order the chart sort
establishes. -/
def rowLe (a b : Json) : Prop := rowDate a ≤ rowDate b

instance : IsTotal Json rowLe := ⟨fun a b => le_total (rowDate a) (rowDate b)⟩

instance : IsTrans Json rowLe := ⟨fun _ _ _ h1 h2 => le_trans h1 h2⟩

instance : DecidableRel rowLe := fun a b => inferInstanceAs (Decidable (rowDate a ≤ rowDate b))

/-- The candle-shaped example input of the specification:
`t:[1,2], o:[10,11], h:[12,13], l:[9,9], c:[11,12], v:[100,200], s:"ok"`. -/
def candleExample : Json := Json.obj [
  ("t", .arr [.num (.val 1), .num (.val 2)] []),
  ("o", .arr [.num (.val 10), .num (.val 11)] []),
  ("h", .arr [.num (.val 12), .num (.val 13)] []),
  ("l", .arr [.num (.val 9), .num (.val 9)] []),
  ("c", .arr [.num (.val 11), .num (.val 12)] []),
  ("v", .arr [.num (.val 100), .num (.val 200)] []),
  ("s", .str "ok")]

/-- The keyed-time-series example entries of the specification (most recent
key first, as returned by the provider). -/
def alphaExampleFields : List (String × Json) := [
  ("2024-01-02", .obj [("1. open", .str "10.0"), ("4. close", .str "10.5")]),
  ("2024-01-01", .obj [("1. open", .str "9.0"), ("4. close", .str "9.5")])]

/-- The normalization of a primitive card value, used to instantiate the
`single`-membership invariant. -/
def primitiveCardResult : NormalizedResult :=
  ⟨Json.null, Json.str "x", [Json.obj [("value", Json.str "x")]],
    Json.obj [("value", Json.str "x")], 0⟩

/-- The nonzero intervals currently registered for a URL — the list
`getShortestInterval` minimizes over (empty also when the URL has no entry). -/
def nonZeroIntervals (reg : Registry) (url : String) : List Nat :=
  (((mapGet reg url).getD []).map Prod.snd).filter (fun i => 0 < i)

/-- A 2xx response whose JSON body is an Alpha Vantage rate-limit notice. -/
def rateLimitedResponse : HttpResponse :=
  ⟨true, 200, "OK",
    "\x7b \"Note\": \"Our standard API call frequency is 25 requests per day.\" \x7d",
    some (Json.obj [("Note",
      .str "Our standard API call frequency is 25 requests per day.")])⟩

/-! ## Theorems -/

theorem mapGet_mapSet {α : Type} (m : List (String × α)) (k : String) (v : α) :
    mapGet (mapSet m k v) k = some v := by
  induction m with
  | nil => simp [mapSet, mapGet]
  | cons p t ih =>
    obtain ⟨k', w⟩ := p
    by_cases h : k' = k
    · simp [mapSet, h, mapGet]
    · simp [mapSet, h, mapGet, ih]

theorem lt_length_padElems (es : List Json) (n : Nat) : n < (padElems es n).length := by
  simp [padElems]
  omega

theorem getElem?_set_padElems (es : List Json) (n : Nat) (v : Json) :
    ((padElems es n).set n v)[n]? = some v :=
  List.getElem?_set_eq_of_lt v (lt_length_padElems es n)

theorem isContainer_jsCopy (j : Json) : isContainer (jsCopy j) = true := by
  cases j <;> rfl

theorem isContainer_childFor (old : Json) (k2 : String) :
    isContainer (childFor old k2) = true := by
  cases old with
  | undefined => simp only [childFor]; split <;> rfl
  | null => simp only [childFor]; split <;> rfl
  | bool b => rfl
  | num n => rfl
  | str s => rfl
  | arr es ps => rfl
  | obj fs => rfl

theorem isContainer_jsSet (cur : Json) (h : isContainer cur = true) (k : String) (v : Json) :
    isContainer (jsSet cur k v) = true := by
  cases cur with
  | arr es ps => rcases hk : jsArrayIndex? k with _ | n <;> simp [jsSet, hk, isContainer]
  | obj fs => rfl
  | undefined => simp [isContainer] at h
  | null => simp [isContainer] at h
  | bool b => simp [isContainer] at h
  | num n => simp [isContainer] at h
  | str s => simp [isContainer] at h

theorem isContainer_setKeys (keys : List String) :
    ∀ cur v, isContainer cur = true → isContainer (setKeys cur keys v) = true := by
  induction keys with
  | nil => intro cur v h; simpa [setKeys] using h
  | cons k ks ih =>
    intro cur v h
    cases ks with
    | nil => exact isContainer_jsSet cur h k v
    | cons k2 ks' => exact isContainer_jsSet cur h k _

/-- Reading back the key just written: one traversal step of `getByPath`
through the node `jsSet` just produced lands exactly on the written child,
provided the segment is canonical. -/
theorem getPathAux_jsSet (cur : Json) (hc : isContainer cur = true) (k : String)
    (hg : goodSegB k = true) (child : Json) (ks : List String) :
    getPathAux (jsSet cur k child) (k :: ks) = getPathAux child ks := by
  cases cur with
  | obj fs => simp [jsSet, getPathAux, mapGet_mapSet]
  | arr es ps =>
    cases hd : digitsKey? k with
    | some n =>
      have hrepr : Nat.repr n = k := by simpa [goodSegB, hd] using hg
      have hidx : jsArrayIndex? k = some n := by simp [jsArrayIndex?, hd, hrepr]
      simp [jsSet, hidx, getPathAux, hd, getElem?_set_padElems]
    | none =>
      have hidx : jsArrayIndex? k = none := by simp [jsArrayIndex?, hd]
      simp [jsSet, hidx, getPathAux, hd, mapGet_mapSet]
  | undefined => simp [isContainer] at hc
  | null => simp [isContainer] at hc
  | bool b => simp [isContainer] at hc
  | num n => simp [isContainer] at hc
  | str s => simp [isContainer] at hc

/-- The set/get roundtrip over an explicit segment list. -/
theorem getPathAux_setKeys (keys : List String) :
    ∀ cur v, keys ≠ [] → isContainer cur = true →
      (∀ k ∈ keys, goodSegB k = true) →
      getPathAux (setKeys cur keys v) keys = v := by
  induction keys with
  | nil => intro cur v h _ _; exact absurd rfl h
  | cons k ks ih =>
    intro cur v _ hc hg
    cases ks with
    | nil =>
      have h1 := getPathAux_jsSet cur hc k (hg k (by simp)) v []
      simpa [setKeys, getPathAux] using h1
    | cons k2 ks' =>
      have h1 : isContainer (childFor (jsGet cur k) k2) = true := isContainer_childFor _ _
      have h2 := ih (childFor (jsGet cur k) k2) v (by simp) h1
        (fun k' hk' => hg k' (by simp [hk']))
      have h3 := getPathAux_jsSet cur hc k (hg k (by simp))
        (setKeys (childFor (jsGet cur k) k2) (k2 :: ks') v) (k2 :: ks')
      calc getPathAux (setKeys cur (k :: k2 :: ks') v) (k :: k2 :: ks')
          = getPathAux (jsSet cur k (setKeys (childFor (jsGet cur k) k2) (k2 :: ks') v))
              (k :: k2 :: ks') := by simp [setKeys]
        _ = getPathAux (setKeys (childFor (jsGet cur k) k2) (k2 :: ks') v) (k2 :: ks') := h3
        _ = v := h2

theorem splitDotAux_ne_nil (cs : List Char) : ∀ acc, splitDotAux acc cs ≠ [] := by
  induction cs with
  | nil => intro acc; simp [splitDotAux]
  | cons c cs ih => intro acc; by_cases h : c = '.' <;> simp [splitDotAux, h, ih]

theorem getByPath_of_container (obj : Json) (h : isContainer obj = true) (path : String)
    (hp : path ≠ "") : getByPath obj path = getPathAux obj (splitDot path) := by
  cases obj <;> try simp [isContainer] at h
  all_goals simp [getByPath, hp]

/-- Claim C2, counterexample: the roundtrip fails as stated. For the dot-path
`"a.00"` on an empty object, `setByPath` creates the intermediate array (the
next segment is all digits) and then stores the value under the string
property `"00"`, because `"00"` is not a canonical array index; `getByPath`,
whose digit test matches `"00"`, instead reads array index `0`, which is
absent, so the read yields the not-found value instead of the written one. -/
theorem getByPath_setByPath_leading_zero :
    getByPath (setByPath (Json.obj []) "a.00" (Json.num (.val 5))) "a.00"
      ≠ Json.num (.val 5) := by
  intro h
  rw [show getByPath (setByPath (Json.obj []) "a.00" (Json.num (.val 5))) "a.00"
      = Json.undefined from rfl] at h
  exact Json.noConfusion h

/-- Claim C2 (amended): for every JSON tree `obj`, every dot-path all of whose
all-digit segments are written canonically (no leading zeros), and every value
`v`, `getByPath (setByPath obj path v) path` returns exactly `v`; `setByPath`
returns a new tree with `v` placed at `path`, creating intermediate objects
(or arrays when the next segment is numeric) as needed. -/
theorem getByPath_setByPath (obj : Json) (path : String) (v : Json)
    (h : ∀ k ∈ splitDot path, goodSegB k = true) :
    getByPath (setByPath obj path v) path = v := by
  by_cases hp : path = ""
  · subst hp; simp [setByPath, getByPath]
  · have hkeys : splitDot path ≠ [] := splitDotAux_ne_nil _ _
    have hcopy : isContainer (jsCopy obj) = true := isContainer_jsCopy obj
    have hres : isContainer (setKeys (jsCopy obj) (splitDot path) v) = true :=
      isContainer_setKeys _ _ _ hcopy
    have hmain := getPathAux_setKeys (splitDot path) (jsCopy obj) v hkeys hcopy h
    rw [setByPath, if_neg hp, getByPath_of_container _ hres _ hp]
    exact hmain

/-- Claim C2, witness at the documented example path. -/
theorem getByPath_setByPath_example :
    getByPath (setByPath (Json.obj []) "data.items.0.name" (Json.str "test"))
      "data.items.0.name" = Json.str "test" :=
  getByPath_setByPath _ _ _ (by decide)

/-- Claim C10: `getByPath` is embedded as a total function (it can raise no
exception); as soon as an intermediate value is missing (`undefined`), `null`,
non-traversable (a primitive), an array index that is out of range, or an
array key that is neither an element index nor an existing property, the
result is the distinguished not-found value `Json.undefined`, which is distinct
from a present `null` stored in the tree (last two conjuncts). -/
theorem getByPath_not_found :
    (∀ ks : List String, getPathAux Json.undefined ks = Json.undefined)
    ∧ (∀ ks : List String, ks ≠ [] → getPathAux Json.null ks = Json.undefined)
    ∧ (∀ (s : String) (ks : List String), ks ≠ [] →
        getPathAux (Json.str s) ks = Json.undefined)
    ∧ (∀ (n : JsNum) (ks : List String), ks ≠ [] →
        getPathAux (Json.num n) ks = Json.undefined)
    ∧ (∀ (b : Bool) (ks : List String), ks ≠ [] →
        getPathAux (Json.bool b) ks = Json.undefined)
    ∧ (∀ (fs : List (String × Json)) (k : String) (ks : List String),
        mapGet fs k = none → getPathAux (Json.obj fs) (k :: ks) = Json.undefined)
    ∧ (∀ (es : List Json) (ps : List (String × Json)) (k : String)
        (ks : List String) (n : Nat), digitsKey? k = some n → es.length ≤ n →
        getPathAux (Json.arr es ps) (k :: ks) = Json.undefined)
    ∧ (∀ (es : List Json) (ps : List (String × Json)) (k : String)
        (ks : List String), digitsKey? k = none → mapGet ps k = none →
        getPathAux (Json.arr es ps) (k :: ks) = Json.undefined)
    ∧ Json.undefined ≠ Json.null
    ∧ getByPath (Json.obj [("a", Json.null)]) "a" = Json.null
    ∧ getByPath (Json.obj []) "a.b" = Json.undefined := by
  have hu : ∀ ks : List String, getPathAux Json.undefined ks = Json.undefined := by
    intro ks; cases ks <;> rfl
  refine ⟨hu, ?_, ?_, ?_, ?_, ?_, ?_, ?_, ?_, rfl, rfl⟩
  · intro ks h; cases ks with
    | nil => exact absurd rfl h
    | cons k ks => rfl
  · intro s ks h; cases ks with
    | nil => exact absurd rfl h
    | cons k ks => rfl
  · intro n ks h; cases ks with
    | nil => exact absurd rfl h
    | cons k ks => rfl
  · intro b ks h; cases ks with
    | nil => exact absurd rfl h
    | cons k ks => rfl
  · intro fs k ks hm; simp [getPathAux, hm, hu]
  · intro es ps k ks n hd hlen
    have : es.get? n = none := List.get?_eq_none.mpr hlen
    rw [List.get?_eq_getElem?] at this
    simp [getPathAux, hd, this, hu]
  · intro es ps k ks hd hm; simp [getPathAux, hd, hm, hu]
  · intro h; exact Json.noConfusion h

/-- Claim C10, witness: a missing object key one level down. -/
theorem getByPath_not_found_example :
    getPathAux (Json.obj [("b", Json.num (.val 1))]) ["a"] = Json.undefined :=
  getByPath_not_found.2.2.2.2.2.1 [("b", Json.num (.val 1))] "a" [] (by rfl)

/-! ### Lemmas about the normalizer -/

theorem orNull_jsIndex_mem (l : List Json) (i : Nat) :
    orNull (jsIndex l i) = Json.null ∨ orNull (jsIndex l i) ∈ l := by
  have hj : jsIndex l i = (l.get? i).getD Json.undefined := rfl
  cases hg : l.get? i with
  | none => left; rw [orNull, hj, hg]; rfl
  | some x =>
    by_cases ht : truthy x = true
    · right
      have hx : orNull (jsIndex l i) = x := by rw [orNull, hj, hg]; simp [ht]
      rw [hx]; exact List.get?_mem hg
    · left; rw [orNull, hj, hg]; simp [ht]

/-- When every element of a nonempty list is truthy, the `single` the source
computes as `list[list.length - 1] || null` is the last element. -/
theorem get?_last_orNull (l : List Json) (hne : l ≠ [])
    (ht : ∀ x ∈ l, truthy x = true) :
    l.get? (l.length - 1) = some (orNull (jsIndex l (l.length - 1))) := by
  have hpos : 0 < l.length := List.length_pos.mpr hne
  cases hg : l.get? (l.length - 1) with
  | none =>
    have h1 : l.length ≤ l.length - 1 := List.get?_eq_none.mp hg
    omega
  | some x =>
    have hx := ht x (List.get?_mem hg)
    rw [show jsIndex l (l.length - 1) = (l.get? (l.length - 1)).getD Json.undefined from rfl,
      hg]
    simp [orNull, hx]

theorem orderedInsert_congr {α : Type} {r s : α → α → Prop}
    [DecidableRel r] [DecidableRel s] (a : α) (l : List α)
    (h : ∀ b ∈ l, (r a b ↔ s a b)) :
    l.orderedInsert r a = l.orderedInsert s a := by
  induction l with
  | nil => rfl
  | cons b t ih =>
    have hb := h b (by simp)
    by_cases hr : r a b
    · rw [List.orderedInsert, List.orderedInsert, if_pos hr, if_pos (hb.mp hr)]
    · rw [List.orderedInsert, List.orderedInsert, if_neg hr,
        if_neg (fun hs => hr (hb.mpr hs)), ih (fun c hc => h c (by simp [hc]))]

/-- The sort outcome only depends on the comparator's verdicts on the list's
own elements, so an everywhere-defined total order that agrees with the JS
comparator on those elements sorts identically. -/
theorem insertionSort_congr {α : Type} {r s : α → α → Prop}
    [DecidableRel r] [DecidableRel s] (l : List α)
    (h : ∀ a ∈ l, ∀ b ∈ l, (r a b ↔ s a b)) :
    l.insertionSort r = l.insertionSort s := by
  induction l with
  | nil => rfl
  | cons a t ih =>
    rw [List.insertionSort, List.insertionSort,
      ih (fun x hx y hy => h x (by simp [hx]) y (by simp [hy])),
      orderedInsert_congr a _
        (fun b hb => h a (by simp) b (by simp [(List.mem_insertionSort s).mp hb]))]

theorem dateLeB_iff_rowLe (a b : Json)
    (hax : (dateValue (jsGet a "time")).isSome = true)
    (hbx : (dateValue (jsGet b "time")).isSome = true) :
    (dateLeB a b = true) ↔ rowLe a b := by
  rcases ho : dateValue (jsGet a "time") with _ | x
  · rw [ho] at hax; simp at hax
  rcases ho2 : dateValue (jsGet b "time") with _ | y
  · rw [ho2] at hbx; simp at hbx
  simp [dateLeB, ho, ho2, rowLe, rowDate]

theorem dateValue_alphaRow (k : String) (v : Json) :
    dateValue (jsGet (alphaRow k v) "time") = parseIsoDate k := rfl

theorem truthy_alphaRow (k : String) (v : Json) : truthy (alphaRow k v) = true := rfl

/-- Claim C9: for every widget type and every extracted value, a produced
`NormalizedResult` has `single` either `null` or an element of `list` (the
empty branches yield `null`; the chart branches take the last row, which when
present and truthy is a member of `list`; the generic branches take the first
element, the object itself or the wrapped primitive). -/
theorem normalizeData_single_mem (wty : String) (e raw : Json) (now : Nat)
    (r : NormalizedResult) (h : normalizeData wty e raw now = .ok r) :
    r.single = Json.null ∨ r.single ∈ r.list := by
  unfold normalizeData at h
  repeat' split at h
  all_goals try exact Except.noConfusion h
  all_goals injection h with h
  all_goals subst h
  all_goals dsimp only
  all_goals first
    | (left; rfl)
    | exact orNull_jsIndex_mem _ _
    | (right; simp)

/-- Claim C9, witness: a primitive extracted by a card widget wraps into a
one-element list containing the single. -/
theorem normalizeData_single_mem_example :
    primitiveCardResult.single = Json.null
      ∨ primitiveCardResult.single ∈ primitiveCardResult.list :=
  normalizeData_single_mem "card" (Json.str "x") Json.null 0 primitiveCardResult rfl

theorem truthy_candleRow (t o h l c v : List Json) (i : Nat) :
    truthy (candleRow t o h l c v i) = true := rfl

/-- Claim C3 (amended to chart widgets): for a chart widget, a candle-shaped
extracted object is zipped index-by-index into row records with fields
`time, open, high, low, close, volume` drawn from the parallel
`t, o, h, l, c, v` arrays (one row per time entry), and `single` is the last
row (`null` when there are no rows). -/
theorem normalizeData_candles (e raw : Json) (now : Nat)
    (hc : looksLikeFinnhubCandles e = true) :
    ∃ r, normalizeData "chart" e raw now = .ok r ∧
      r.list.length = (arrOf (jsGet e "t")).length ∧
      (∀ i, i < r.list.length → r.list.get? i = some (Json.obj [
        ("time", jsIndex (arrOf (jsGet e "t")) i),
        ("open", jsIndex (arrOf (jsGet e "o")) i),
        ("high", jsIndex (arrOf (jsGet e "h")) i),
        ("low", jsIndex (arrOf (jsGet e "l")) i),
        ("close", jsIndex (arrOf (jsGet e "c")) i),
        ("volume", jsIndex (arrOf (jsGet e "v")) i)])) ∧
      (r.list = [] → r.single = Json.null) ∧
      (r.list ≠ [] → r.list.get? (r.list.length - 1) = some r.single) := by
  rcases e with _ | _ | b | n | s | ⟨es, ps⟩ | fs <;> try exact Bool.noConfusion hc
  have h1 : ¬(isNullish (Json.obj fs) = true) := by simp [isNullish]
  set t := arrOf (jsGet (Json.obj fs) "t") with hdeft
  set o := arrOf (jsGet (Json.obj fs) "o") with hdefo
  set hi := arrOf (jsGet (Json.obj fs) "h") with hdefh
  set lo := arrOf (jsGet (Json.obj fs) "l") with hdefl
  set c := arrOf (jsGet (Json.obj fs) "c") with hdefc
  set v := arrOf (jsGet (Json.obj fs) "v") with hdefv
  set L := (List.range t.length).map (candleRow t o hi lo c v) with hdefL
  have hnorm : normalizeData "chart" (Json.obj fs) raw now =
      .ok ⟨raw, Json.obj fs, L, orNull (jsIndex L (t.length - 1)), now⟩ := by
    unfold normalizeData
    rw [if_neg h1, if_pos rfl, if_pos hc]
  have hlen : L.length = t.length := by simp [hdefL]
  refine ⟨_, hnorm, hlen, ?_, ?_, ?_⟩
  · intro i hiL
    rw [hlen] at hiL
    simp only [hdefL, List.get?_eq_getElem?, List.getElem?_map,
      List.getElem?_range hiL]
    rfl
  · intro hL
    dsimp only at hL ⊢
    have ht0 : t.length = 0 := by rw [← hlen, hL]; rfl
    rw [hL, ht0]
    rfl
  · intro hL
    dsimp only at hL ⊢
    rw [← hlen]
    exact get?_last_orNull L hL (fun x hx => by
      obtain ⟨i, _, rfl⟩ := List.mem_map.mp hx
      exact truthy_candleRow t o hi lo c v i)

/-- Claim C3, counterexample: as stated, the claim quantifies over every
widget type, but the source zips candle objects only inside its
`type === "chart"` branch; a card widget receiving the specification's candle
example falls through to the generic object case, producing a one-element
list (the object itself) rather than two zipped rows, and a `single` with no
`close` field at all. -/
theorem normalizeData_candles_card_cx :
    (normalizeData "card" candleExample Json.null 0).map
      (fun r => (r.list.length, jsGet r.single "close")) = .ok (1, Json.undefined)
    ∧ (1 : Nat) ≠ 2 := ⟨rfl, by decide⟩

/-- Claim C3, witness: the specification's candle example for a chart widget
yields two rows and a last-row close of 12. -/
theorem normalizeData_candles_example :
    (normalizeData "chart" candleExample Json.null 0).map
      (fun r => (r.list.length, jsGet r.single "close"))
      = .ok (2, Json.num (.val 12)) := by
  have h := normalizeData_candles candleExample Json.null 0 rfl
  exact rfl

/-- Claim C4: for a chart widget, an Alpha-Vantage-style keyed time series
(reached when the candle check, which the source tries first, fails) produces
one `alphaRow` per entry — the entry key as `time`, the provider-prefixed
numeric strings parsed into canonical `open/high/low/close/volume` number
fields — sorted ascending by parsed date (stated for entry keys that all
parse as dates, which is what the detected shape's date-like keys are), with
`single` the most-recent, i.e. last, row. -/
theorem normalizeData_alpha (fs : List (String × Json)) (raw : Json) (now : Nat)
    (ha : looksLikeAlphaTimeSeriesObject (Json.obj fs) = true)
    (hnc : looksLikeFinnhubCandles (Json.obj fs) = false)
    (hd : ∀ kv ∈ fs, (parseIsoDate kv.1).isSome = true) :
    ∃ r, normalizeData "chart" (Json.obj fs) raw now = .ok r ∧
      r.list.Perm (fs.map fun kv => alphaRow kv.1 kv.2) ∧
      r.list.Pairwise rowLe ∧
      r.list ≠ [] ∧
      r.list.get? (r.list.length - 1) = some r.single := by
  have h1 : ¬(isNullish (Json.obj fs) = true) := by simp [isNullish]
  have h2 : ¬(looksLikeFinnhubCandles (Json.obj fs) = true) := by simp [hnc]
  set rows := fs.map (fun kv => alphaRow kv.1 kv.2) with hrows
  set L := rows.insertionSort (fun a b => dateLeB a b = true) with hdefL
  have hnorm : normalizeData "chart" (Json.obj fs) raw now =
      .ok ⟨raw, Json.obj fs, L, orNull (jsIndex L (L.length - 1)), now⟩ := by
    unfold normalizeData
    rw [if_neg h1, if_pos rfl, if_neg h2, if_pos ha]
    rfl
  have hsome : ∀ a ∈ rows, (dateValue (jsGet a "time")).isSome = true := by
    intro a haa
    rw [hrows] at haa
    obtain ⟨kv, hkv, rfl⟩ := List.mem_map.mp haa
    rw [dateValue_alphaRow]
    exact hd kv hkv
  have hperm : L.Perm rows := List.perm_insertionSort _ rows
  have hpair : L.Pairwise rowLe := by
    have hcongr : L = rows.insertionSort rowLe :=
      insertionSort_congr rows
        (fun a haa b hbb => dateLeB_iff_rowLe a b (hsome a haa) (hsome b hbb))
    rw [hcongr]
    exact List.sorted_insertionSort rowLe rows
  have hne : L ≠ [] := by
    have hfs : fs ≠ [] := by
      intro hfs; rw [hfs] at ha; exact Bool.noConfusion ha
    intro hLnil
    have hz : rows.length = 0 := by rw [← hperm.length_eq, hLnil]; rfl
    rw [hrows, List.length_map] at hz
    exact hfs (List.length_eq_zero.mp hz)
  have hlast := get?_last_orNull L hne (fun x hx => by
    obtain ⟨kv, _, rfl⟩ := List.mem_map.mp (hrows ▸ hperm.mem_iff.mp hx)
    exact truthy_alphaRow kv.1 kv.2)
  exact ⟨_, hnorm, hperm, hpair, hne, hlast⟩

/-- Claim C4, witness: the specification's two-entry example lists the rows
in ascending date order and exposes the most recent close 10.5 (the exact
rational 21/2). -/
theorem normalizeData_alpha_example :
    (normalizeData "chart" (Json.obj alphaExampleFields) Json.null 0).map
      (fun r => (r.list.map fun row => jsGet row "time", jsGet r.single "close"))
      = .ok ([Json.str "2024-01-01", Json.str "2024-01-02"],
          Json.num (.val (mkRat 21 2))) := by
  have h := normalizeData_alpha alphaExampleFields Json.null 0 rfl rfl (by decide)
  exact rfl

/-! ### Lemmas about the interval registry -/

theorem foldl_min_le_init (xs : List Nat) : ∀ x, xs.foldl Nat.min x ≤ x := by
  induction xs with
  | nil => intro x; exact le_refl x
  | cons y ys ih =>
    intro x
    calc ys.foldl Nat.min (Nat.min x y) ≤ Nat.min x y := ih _
      _ ≤ x := Nat.min_le_left _ _

theorem foldl_min_le_mem (xs : List Nat) : ∀ x, ∀ i ∈ xs, xs.foldl Nat.min x ≤ i := by
  induction xs with
  | nil => intro x i hi; simp at hi
  | cons y ys ih =>
    intro x i hi
    rcases List.mem_cons.mp hi with rfl | hi2
    · calc ys.foldl Nat.min (Nat.min x i) ≤ Nat.min x i := foldl_min_le_init ys _
        _ ≤ i := Nat.min_le_right _ _
    · exact ih _ i hi2

theorem foldl_min_mem (xs : List Nat) :
    ∀ x, xs.foldl Nat.min x = x ∨ xs.foldl Nat.min x ∈ xs := by
  induction xs with
  | nil => intro x; left; rfl
  | cons y ys ih =>
    intro x
    rcases ih (Nat.min x y) with h | h
    · rw [List.foldl_cons, h]
      rcases Nat.le_total x y with hxy | hxy
      · left; unfold Nat.min; exact inf_eq_left.mpr hxy
      · right
        have hxy2 : Nat.min x y = y := by
          unfold Nat.min; exact inf_eq_right.mpr hxy
        rw [hxy2]; exact List.mem_cons_self y ys
    · right; exact List.mem_cons_of_mem y h

/-- Claim C1: for every registry state and URL, the effective interval is 0
(and the poll manual-only, `refetchInterval = none`) exactly when no
registered subscriber requests a nonzero interval; otherwise it is one of the
nonzero requested intervals and a lower bound of them, i.e. their minimum.
The characterization holds for every registry state, hence after every
registration, interval update or removal — each is just another state; the
witness walks the claim's 30s/10s scenario. -/
theorem getShortestInterval_min (reg : Registry) (url : String) :
    (nonZeroIntervals reg url = [] → getShortestInterval reg url = 0
      ∧ refetchInterval (getShortestInterval reg url) = none)
    ∧ (nonZeroIntervals reg url ≠ [] →
        getShortestInterval reg url ∈ nonZeroIntervals reg url
        ∧ ∀ i ∈ nonZeroIntervals reg url, getShortestInterval reg url ≤ i) := by
  cases hm : mapGet reg url with
  | none =>
    constructor
    · intro _
      exact ⟨by simp [getShortestInterval, hm],
        by simp [getShortestInterval, hm, refetchInterval]⟩
    · intro hne; exact absurd (by simp [nonZeroIntervals, hm]) hne
  | some inner =>
    have hnz : nonZeroIntervals reg url
        = (inner.map Prod.snd).filter (fun i => 0 < i) := by
      simp [nonZeroIntervals, hm]
    cases hl : (inner.map Prod.snd).filter (fun i => 0 < i) with
    | nil =>
      constructor
      · intro _
        have hg : getShortestInterval reg url = 0 := by
          simp [getShortestInterval, hm, hl]
        exact ⟨hg, by simp [hg, refetchInterval]⟩
      · intro hne; rw [hnz, hl] at hne; exact absurd rfl hne
    | cons x xs =>
      have hg : getShortestInterval reg url = xs.foldl Nat.min x := by
        simp [getShortestInterval, hm, hl]
      constructor
      · intro h0; rw [hnz, hl] at h0; exact absurd h0 (by simp)
      · intro _
        rw [hnz, hl, hg]
        refine ⟨?_, ?_⟩
        · rcases foldl_min_mem xs x with h | h
          · rw [h]; exact List.mem_cons_self x xs
          · exact List.mem_cons_of_mem x h
        · intro i hi
          rcases List.mem_cons.mp hi with rfl | hi2
          · exact foldl_min_le_init xs i
          · exact foldl_min_le_mem xs x i hi2

/-- Claim C1, witness: subscribers at 30s and 10s yield effective interval 10
(a member of the nonzero intervals by the theorem), and removing the 10s
subscriber updates it to 30. -/
theorem getShortestInterval_min_example :
    getShortestInterval (registerInterval (registerInterval [] "u" "w1" 30) "u" "w2" 10) "u"
      ∈ nonZeroIntervals (registerInterval (registerInterval [] "u" "w1" 30) "u" "w2" 10) "u"
    ∧ getShortestInterval (registerInterval (registerInterval [] "u" "w1" 30) "u" "w2" 10) "u"
      = 10
    ∧ getShortestInterval (unregisterInterval
        (registerInterval (registerInterval [] "u" "w1" 30) "u" "w2" 10) "u" "w2") "u"
      = 30 := by
  refine ⟨((getShortestInterval_min _ "u").2 (by decide)).1, by decide, by decide⟩

/-! ### Error pipeline claims -/

/-- Claim C5: a 2xx response whose JSON body carries a rate-limit indicator
(`detectApiResponseError` classifies it RateLimit) makes `queryFn` throw that
classification — the body is never returned as fresh data — and the retry
predicate refuses to retry it at every failure count. -/
theorem queryFn_rate_limit_body (apiUrl : String) (hurl : apiUrl ≠ "")
    (r : HttpResponse) (now : Nat) (j : Json) (e : ErrorInfo)
    (hok : r.ok = true) (hbody : r.bodyJson = some j)
    (hdet : detectApiResponseError j = .ok (some e))
    (hrl : e.type = .rate_limit) :
    queryFn apiUrl (.response r) now = .error (.apiError e)
    ∧ ∀ n, retryDecision n (some e.type) = false := by
  constructor
  · unfold queryFn
    rw [if_neg hurl]
    dsimp only
    rw [if_neg (by simp [hok]), hbody]
    dsimp only
    rw [hdet]
  · intro n
    rw [hrl]
    rfl

/-- Claim C5, witness: an Alpha Vantage `Note` body on a 200 response. -/
theorem queryFn_rate_limit_body_example :
    queryFn "https://example.com/api" (.response rateLimitedResponse) 0
      = .error (.apiError ⟨.rate_limit, "API rate limit reached",
          .str "Alpha Vantage allows 25 requests/day (free tier). Try again tomorrow or upgrade your API key.",
          some 3600⟩)
    ∧ retryDecision 0 (some ErrorType.rate_limit) = false := by
  have h := queryFn_rate_limit_body "https://example.com/api" (by decide)
    rateLimitedResponse 0
    (Json.obj [("Note", .str "Our standard API call frequency is 25 requests per day.")])
    ⟨.rate_limit, "API rate limit reached",
      .str "Alpha Vantage allows 25 requests/day (free tier). Try again tomorrow or upgrade your API key.",
      some 3600⟩ rfl rfl rfl rfl
  exact ⟨h.1, h.2 0⟩

/-- Claim C6: for every non-2xx response, body-embedded detection takes
precedence exactly when the body parses as JSON and matches an indicator;
otherwise the HTTP status decides the kind, agreeing with the spec's table
(`specStatusKind`), with the 429 arm's `retryAfterSec` parsed from the body
and defaulting to 60 (also when the parsed value is 0, which is falsy). -/
theorem parseHttpError_spec (status : Nat) (statusText responseBody : String)
    (bodyJson : Option Json) (h2xx : ¬(200 ≤ status ∧ status ≤ 299)) :
    (∀ j e, bodyJson = some j → detectApiResponseError j = .ok (some e) →
      parseHttpError status statusText responseBody bodyJson = .ok e)
    ∧ ((bodyJson = none
        ∨ ∃ j, bodyJson = some j ∧ detectApiResponseError j = .ok none) →
      parseHttpError status statusText responseBody bodyJson
          = .ok (httpStatusError status statusText responseBody)
        ∧ (httpStatusError status statusText responseBody).type = specStatusKind status
        ∧ (status = 429 →
            (httpStatusError status statusText responseBody).retryAfter
              = some (match extractRetryAfter responseBody with
                      | some n => if n ≠ 0 then n else 60
                      | none => 60))) := by
  constructor
  · intro j e hj hdet
    unfold parseHttpError
    rw [hj]
    dsimp only
    rw [hdet]
    rfl
  · intro hnb
    have hok : parseHttpError status statusText responseBody bodyJson
        = .ok (httpStatusError status statusText responseBody) := by
      rcases hnb with rfl | ⟨j, rfl, hdet⟩
      · rfl
      · unfold parseHttpError
        dsimp only
        rw [hdet]
        rfl
    refine ⟨hok, ?_, ?_⟩
    · unfold httpStatusError specStatusKind
      split_ifs <;> first | rfl | (exfalso; omega)
    · intro h429
      subst h429
      unfold httpStatusError
      split_ifs <;> first | rfl | omega

/-- Claim C6, witness: a 404 without JSON body classifies by status as
NotFound, matching the spec table. -/
theorem parseHttpError_spec_example :
    parseHttpError 404 "Not Found" "" none
        = .ok (httpStatusError 404 "Not Found" "")
    ∧ (httpStatusError 404 "Not Found" "").type = specStatusKind 404 := by
  have h := (parseHttpError_spec 404 "Not Found" "" none (by omega)).2 (Or.inl rfl)
  exact ⟨h.1, h.2.1⟩

/-- Claim C7: rate-limit, auth and not-found failures are never retried; any
other classified kind (including an untyped error, `none`) is retried exactly
while fewer than 2 additional attempts have been made; the delays follow
exponential backoff — 1000 ms first, doubling per attempt, capped at
10000 ms. -/
theorem retry_policy :
    (∀ n, retryDecision n (some ErrorType.rate_limit) = false
      ∧ retryDecision n (some ErrorType.auth_error) = false
      ∧ retryDecision n (some ErrorType.not_found) = false)
    ∧ (∀ (n : Nat) (t : Option ErrorType), t ≠ some ErrorType.rate_limit →
        t ≠ some ErrorType.auth_error → t ≠ some ErrorType.not_found →
        (retryDecision n t = true ↔ n < 2))
    ∧ retryDelay 0 = 1000
    ∧ (∀ i, retryDelay (i + 1) = min (2 * retryDelay i) 10000)
    ∧ (∀ i, retryDelay i ≤ 10000) := by
  refine ⟨fun n => ⟨rfl, rfl, rfl⟩, ?_, rfl, ?_, ?_⟩
  · intro n t h1 h2 h3
    unfold retryDecision
    rw [if_neg h1, if_neg h2, if_neg h3]
    exact decide_eq_true_iff
  · intro i
    unfold retryDelay
    rw [pow_succ]
    generalize (2 : Nat) ^ i = a
    omega
  · intro i
    unfold retryDelay
    exact Nat.min_le_right _ _

/-- Claim C7, witness: a rate limit is not retried even on the first failure,
while a server error is. -/
theorem retry_policy_example :
    retryDecision 0 (some ErrorType.rate_limit) = false
    ∧ (retryDecision 0 (some ErrorType.server_error) = true ↔ 0 < 2) :=
  ⟨(retry_policy.1 0).1,
    retry_policy.2.1 0 (some ErrorType.server_error) (by simp) (by simp) (by simp)⟩

/-- Claim C8: a failed fetch on an entry with cached data keeps the last good
data unchanged while `isError` is simultaneously true; and the widget-level
`isLoading` (the source's `isLoading && !apiResponse`) is true only while a
fetch is in flight with no cached data — in particular it is false whenever
cached data exists. -/
theorem stale_while_revalidate (entry : FetchCacheEntry) (j : Json) (e : ErrorInfo) :
    (entry.rawData = some j →
      (onFetchFailure entry e).rawData = some j
      ∧ entryIsError (onFetchFailure entry e) = true)
    ∧ (widgetIsLoading entry = true → entry.fetching = true ∧ entry.rawData = none)
    ∧ (entry.rawData = some j → widgetIsLoading entry = false) := by
  refine ⟨fun h => ⟨h, rfl⟩, ?_, ?_⟩
  · intro h
    unfold widgetIsLoading queryIsLoading at h
    constructor
    · cases hf : entry.fetching
      · rw [hf] at h; simp at h
      · rfl
    · cases hr : entry.rawData with
      | none => rfl
      | some x => rw [hr] at h; simp at h
  · intro h
    unfold widgetIsLoading queryIsLoading
    rw [h]
    simp

/-- Claim C8, witness: a concrete failing refetch over cached data. -/
theorem stale_while_revalidate_example :
    (onFetchFailure ⟨some (Json.str "d"), none, true⟩
        ⟨.server_error, "Server error", .str "x", none⟩).rawData = some (Json.str "d")
    ∧ entryIsError (onFetchFailure ⟨some (Json.str "d"), none, true⟩
        ⟨.server_error, "Server error", .str "x", none⟩) = true :=
  (stale_while_revalidate ⟨some (Json.str "d"), none, true⟩ (Json.str "d")
    ⟨.server_error, "Server error", .str "x", none⟩).1 rfl

end FinBoard
